import Mathlib

/-!
# smallsh: command execution and job control

A shallow embedding of `src/smallsh.c` (the built-in dispatcher, the process
supervisor `execute_external`, and the background-process list) and of
`cmdExpand` from `src/program3/cmd.c`.

System calls are modelled as explicit events in a trace; what the operating
system answers (the value returned by `fork`, whether `fopen` succeeds, the
wait status, ...) is read from a `World` record.
-/

namespace Smallsh

/-! ## Data model -/

/-- The command struct of `src/cmd.h`. A `char *` that may be `NULL`
(`input`, `output`) is an `Option`; `argv` is the argument vector. -/
structure cmd where
  text : String
  argv : List String
  background : Bool
  input : Option String
  output : Option String
  deriving DecidableEq, Repr

/-- One node of the linked list of background processes. `addr` is the address
of the node: the C code compares nodes by pointer. The `next` pointer is the
tail of the list the node sits in. -/
structure processNode where
  addr : Nat
  pid : Int
  command : String
  deriving DecidableEq, Repr

/-- Modelled from the spec: the declaration of `struct smallsh` (smallsh.h) is
not among the sources. The fields `status`, `statusIsSignal` and `processes`
(the list hanging off `processesHead`) are the ones `smallsh.c` reads and
writes; `foregroundOnly` is the shell-wide foreground-only mode the spec
describes as toggled by the stop-signal handler. -/
structure smallsh where
  status : Int
  statusIsSignal : Bool
  processes : List processNode
  foregroundOnly : Bool
  deriving DecidableEq, Repr

/-- The two signals the shell configures. -/
inductive Signal
  | SIGINT
  | SIGTSTP
  deriving DecidableEq, Repr

/-- What a process does when a signal arrives. -/
inductive Disposition
  | SIG_DFL
  | SIG_IGN
  | handler
  deriving DecidableEq, Repr

/-- The system and library calls whose order the properties talk about. -/
inductive Event
  | fopen (path : String) (mode : String) (ok : Bool)
  | dup2 (newfd : Nat) (ok : Bool)
  | printf (out : String)
  | sigaction (sig : Signal) (d : Disposition)
  | sigprocmask (block : Bool) (sig : Signal)
  | waitpid (pid : Int) (status : Int)
  | kill (pid : Int) (sig : Int)
  | chdir (path : Option String)
  | execvp (file : String) (argv : List String)
  deriving DecidableEq, Repr

/-- How a run of a function ends: it returns to its caller with a value and the
shell state it leaves, the process calls `exit`, the process image is replaced
by `execvp`, or (`fault`) the behaviour is undefined because a `NULL` pointer
is dereferenced or bytes are written past the end of an allocated block. -/
inductive Outcome
  | returned (value : Int) (shell : smallsh)
  | exited (code : Int)
  | replaced
  | fault
  deriving DecidableEq, Repr

/-- The answers of the operating system. -/
structure World where
  /-- the value `fork()` returns in the process being followed -/
  fork : Int
  /-- whether `fopen(path, mode)` returns a stream -/
  fopen : String → String → Bool
  /-- whether `dup2` onto the given descriptor succeeds -/
  dup2 : Nat → Bool
  /-- whether `execvp` replaces the process image (it returns otherwise) -/
  execvp : String → Bool
  /-- the status `waitpid` stores for the child -/
  waitStatus : Int
  /-- the value of `getenv("HOME")` -/
  home : Option String
  /-- the address of the block `malloc(sizeof(struct processNode))` returns for
  a new list node, an address no live node has; `none` when it returns `NULL` -/
  nodeBlock : Option Nat
  /-- the number of bytes that may be written to the block `malloc(size)`
  returns for a string; `none` when it returns `NULL`. The C standard promises
  `size` bytes, an allocator may round the block up. -/
  usable : Nat → Option Nat

/-- The value an outcome returns to the caller, if it returns. -/
def Outcome.value? : Outcome → Option Int
  | .returned v _ => some v
  | _ => none

/-- The shell state an outcome leaves, if it returns. -/
def Outcome.shell? : Outcome → Option smallsh
  | .returned _ s => some s
  | _ => none

/-! ## Wait-status macros of `<sys/wait.h>` (Linux encoding) -/

/-- `WTERMSIG(status)` is `status & 0x7f`. -/
def WTERMSIG (status : Int) : Int := status % 128

/-- `WIFEXITED(status)` is `WTERMSIG(status) == 0`. -/
def WIFEXITED (status : Int) : Bool := WTERMSIG status == 0

/-- `WEXITSTATUS(status)` is `(status & 0xff00) >> 8`. -/
def WEXITSTATUS (status : Int) : Int := (status / 256) % 256

/-- The status the kernel reports for a child that called `exit(code)`. -/
def exitedStatus (code : Nat) : Int := (code : Int) * 256

/-- The status the kernel reports for a child killed by signal `sig`; bit 7 is
the core-dump flag. -/
def signaledStatus (sig : Nat) (core : Bool) : Int :=
  (sig : Int) + (if core then 128 else 0)

/-- What `printf("%s", p)` writes for a `char *` that may be `NULL`
(glibc writes `(null)`). -/
def fmtS : Option String → String
  | some s => s
  | none => "(null)"

/-- Whether a call delivers a signal to a process: `kill(pid, 0)` performs the
error checks only and sends nothing. -/
def Event.delivers : Event → Bool
  | .kill _ sig => sig != 0
  | _ => false

/-! ## `smallsh.c` -/

/-- printStatus of smallsh.c: the line printed by the `status` built-in. -/
def printStatus (status : Int) (statusIsSignal : Bool) : List Event :=
  if statusIsSignal then
    [Event.printf ("terminated by signal " ++ toString (WTERMSIG status) ++ "\n")]
  else
    [Event.printf ("exit value " ++ toString status ++ "\n")]

/-- `strlen` of a string: its number of bytes. -/
def strlen (s : String) : Nat := s.utf8ByteSize

/-- The pair `p = malloc(size); strcpy(p, src);`. `strcpy` writes the bytes
of `src` and a terminator, `strlen(src) + 1` bytes in all. The result is the
string `p` then holds; `none` when the behaviour is undefined: `malloc`
returned `NULL`, or the block is too small and the terminator (or more) is
written past its end. -/
def mallocStrcpy (w : World) (size : Nat) (src : String) : Option String :=
  match w.usable size with
  | none => none
  | some bytes => if strlen src + 1 ≤ bytes then some src else none

/-- trackProcess of smallsh.c: a new node holding the pid and a copy of the
command text, made into a block of `strlen(cmd->text)` bytes, goes to the front
of the list. `none` when the behaviour is undefined (the node pointer is
`NULL`, or the copy does not fit its block). -/
def trackProcess (w : World) (shell : smallsh) (c : cmd) (pid : Int) : Option smallsh :=
  match w.nodeBlock with
  | none => none
  | some addr =>
    match mallocStrcpy w (strlen c.text) c.text with
    | none => none
    | some command =>
      let node : processNode := { addr := addr, pid := pid, command := command }
      match shell.processes with
      | [] => some { shell with processes := [node] }
      | head :: rest => some { shell with processes := node :: head :: rest }

/-- The `while (curr->next)` loop of removeProcess: `visited` are the nodes up
to and including `curr`, the last argument is the list starting at
`curr->next`. A matching node is unlinked and `curr` stays; otherwise `curr`
advances. -/
def removeLoop (node : Nat) : List processNode → List processNode → List processNode
  | visited, [] => visited
  | visited, n :: rest =>
    if n.addr = node then removeLoop node visited rest
    else removeLoop node (visited ++ [n]) rest

/-- removeProcess of smallsh.c. With an empty list `curr` is `NULL` and either
`node->next` or `curr->next` dereferences it. -/
def removeProcess (shell : smallsh) (node : Nat) : Option smallsh :=
  match shell.processes with
  | [] => none
  | curr :: rest =>
    if curr.addr = node then some { shell with processes := rest }
    else some { shell with processes := removeLoop node [curr] rest }

/-- The string `newInput` points to after lines 89-100. The outer `none` is
undefined behaviour in one of the two copies; `some none` is the `NULL`
pointer; `some (some path)` is a block holding `path`. -/
def newInput (w : World) (c : cmd) : Option (Option String) :=
  let dflt : Option (Option String) :=
    if c.background then
      match mallocStrcpy w (strlen "/dev/null") "/dev/null" with
      | none => none
      | some p => some (some p)
    else some none
  match dflt with
  | none => none
  | some p =>
    match c.input with
    | some user =>
      match mallocStrcpy w (strlen user) user with
      | none => none
      | some q => some (some q)
    | none => some p

/-- The string `newOutput` points to after lines 120-131, read as for
`newInput`. -/
def newOutput (w : World) (c : cmd) : Option (Option String) :=
  let dflt : Option (Option String) :=
    if c.background then
      match mallocStrcpy w (strlen "/dev/null") "/dev/null" with
      | none => none
      | some p => some (some p)
    else some none
  match dflt with
  | none => none
  | some p =>
    match c.output with
    | some user =>
      match mallocStrcpy w (strlen user) user with
      | none => none
      | some q => some (some q)
    | none => some p

/-- Input redirection in the child (lines 89-116). The second component is
`none` when the child goes on to the next step, and the way the child ends
otherwise: `exit(1)`, or undefined behaviour in the copy of the path. -/
def redirectInput (w : World) (c : cmd) : List Event × Option Outcome :=
  match newInput w c with
  | none => ([], some Outcome.fault)
  | some none => ([], none)
  | some (some path) =>
    if w.fopen path "r" then
      if w.dup2 0 then ([Event.fopen path "r" true, Event.dup2 0 true], none)
      else ([Event.fopen path "r" true, Event.dup2 0 false], some (Outcome.exited 1))
    else
      ([Event.fopen path "r" false,
        Event.printf ("cannot open " ++ fmtS c.input ++ " for input\n")],
        some (Outcome.exited 1))

/-- Output redirection in the child (lines 120-146), read as for
`redirectInput`. -/
def redirectOutput (w : World) (c : cmd) : List Event × Option Outcome :=
  match newOutput w c with
  | none => ([], some Outcome.fault)
  | some none => ([], none)
  | some (some path) =>
    if w.fopen path "w" then
      if w.dup2 1 then ([Event.fopen path "w" true, Event.dup2 1 true], none)
      else ([Event.fopen path "w" true, Event.dup2 1 false], some (Outcome.exited 1))
    else
      ([Event.fopen path "w" false,
        Event.printf ("cannot open " ++ fmtS c.output ++ " for output\n")],
        some (Outcome.exited 1))

/-- Modelled from the spec: `ignoreSIGINT` is declared in smallsh_signals.h,
which is not among the sources; by its name and the spec's signal policy it
sets the disposition of the interrupt signal to "ignore". -/
def ignoreSIGINT : List Event := [Event.sigaction Signal.SIGINT Disposition.SIG_IGN]

/-- Modelled from the spec: `ignoreSIGTSTP` is declared in smallsh_signals.h,
which is not among the sources; by its name and the spec's signal policy it
sets the disposition of the stop signal to "ignore". -/
def ignoreSIGTSTP : List Event := [Event.sigaction Signal.SIGTSTP Disposition.SIG_IGN]

/-- The signal set-up of the child (lines 152-170). -/
def childSignals (c : cmd) : List Event :=
  if c.background then
    ignoreSIGINT ++ ignoreSIGTSTP
  else
    [Event.sigaction Signal.SIGINT Disposition.SIG_DFL] ++ ignoreSIGTSTP

/-- The exec step of the child (lines 171-174). -/
def childExec (w : World) (c : cmd) : List Event × Outcome :=
  match c.argv with
  | [] => ([], Outcome.fault)
  | name :: _ =>
    if w.execvp name then ([Event.execvp name c.argv], Outcome.replaced)
    else
      ([Event.execvp name c.argv,
        Event.printf (name ++ ": no such file or directory\n")], Outcome.exited 1)

/-- The child branch of execute_external (case 0). -/
def child (w : World) (c : cmd) : List Event × Outcome :=
  let i := redirectInput w c
  match i.2 with
  | some ended => (i.1, ended)
  | none =>
    let o := redirectOutput w c
    match o.2 with
    | some ended => (i.1 ++ o.1, ended)
    | none =>
      let x := childExec w c
      (i.1 ++ o.1 ++ childSignals c ++ x.1, x.2)

/-- The parent branch of execute_external (the default case). -/
def parent (w : World) (shell : smallsh) (c : cmd) : List Event × Outcome :=
  if !c.background then
    let status := w.waitStatus
    let trace := [Event.sigprocmask true Signal.SIGTSTP,
                  Event.waitpid w.fork status,
                  Event.sigprocmask false Signal.SIGTSTP]
    if WIFEXITED status then
      let shell1 := { shell with statusIsSignal := false }
      if WEXITSTATUS status ≠ 0 then (trace, Outcome.returned 1 shell1)
      else (trace, Outcome.returned 0 shell1)
    else
      let shell1 := { shell with statusIsSignal := true }
      (trace, Outcome.returned (WTERMSIG status) shell1)
  else
    match trackProcess w shell c w.fork with
    | none => ([], Outcome.fault)
    | some shell1 =>
      ([Event.printf ("background pid is " ++ toString w.fork ++ "\n")],
        Outcome.returned shell1.status shell1)

/-- execute_external of smallsh.c, followed in the process where `fork`
returned `w.fork`. -/
def execute_external (w : World) (shell : smallsh) (c : cmd) : List Event × Outcome :=
  if w.fork = -1 then ([], Outcome.returned 1 shell)
  else if w.fork = 0 then child w c
  else parent w shell c

/-- The loop of the `exit` built-in over the process list. -/
def exitLoop : List processNode → List Event
  | [] => []
  | node :: next => Event.kill node.pid 0 :: exitLoop next

/-- smallshExecute of smallsh.c. -/
def smallshExecute (w : World) (shell : smallsh) (c : cmd) : List Event × Outcome :=
  match c.argv with
  | [] => ([], Outcome.fault)
  | name :: args =>
    if name = "exit" then
      (exitLoop shell.processes, Outcome.exited 0)
    else if name = "cd" then
      match args with
      | path :: _ => ([Event.chdir (some path)], Outcome.returned shell.status shell)
      | [] => ([Event.chdir w.home], Outcome.returned shell.status shell)
    else if name = "status" then
      (printStatus shell.status shell.statusIsSignal, Outcome.returned shell.status shell)
    else
      execute_external w shell c

/-! ## Foreground-only mode -/

/-- Whether the trace contains a `waitpid` on the given pid. -/
def waitsFor (trace : List Event) (pid : Int) : Bool :=
  trace.any fun e =>
    match e with
    | Event.waitpid p _ => p == pid
    | _ => false

/-- Whether an event changes a signal disposition. -/
def Event.isSigaction : Event → Bool
  | .sigaction _ _ => true
  | _ => false

/-- Whether an event opens a file. -/
def Event.isFopen : Event → Bool
  | .fopen _ _ _ => true
  | _ => false

/-- The dispositions of the two signals in one process. -/
structure Dispositions where
  sigint : Disposition
  sigtstp : Disposition
  deriving DecidableEq, Repr

/-- The effect of one event on the dispositions. -/
def Dispositions.step (d : Dispositions) : Event → Dispositions
  | .sigaction Signal.SIGINT x => { d with sigint := x }
  | .sigaction Signal.SIGTSTP x => { d with sigtstp := x }
  | _ => d

/-- The dispositions after a trace, starting from `d`. -/
def Dispositions.after (d : Dispositions) (trace : List Event) : Dispositions :=
  trace.foldl Dispositions.step d

/-- The bytes glibc on a 64-bit machine lets a program write to the block
`malloc(size)` returns: blocks are 24, 40, 56, ... bytes. -/
def glibcUsable (size : Nat) : Nat := max 24 ((size + 23) / 16 * 16 - 8)

/-- A world in which every call succeeds, the allocator is glibc and the child
exits with code 3. -/
def okWorld : World :=
  { fork := 42, fopen := fun _ _ => true, dup2 := fun _ => true, execvp := fun _ => true,
    waitStatus := 768, home := some "/home/user", nodeBlock := some 4096,
    usable := fun size => some (glibcUsable size) }

/-- The world of `okWorld`, followed in the child. -/
def childWorld : World :=
  { okWorld with fork := 0 }

/-- The world of `okWorld`, followed in the child and with no file that can be
opened. -/
def noOpenWorld : World :=
  { okWorld with fork := 0, fopen := fun _ _ => false }

/-- The world of `okWorld`, followed in the child, where files open for
reading only. -/
def readOnlyWorld : World :=
  { okWorld with fork := 0, fopen := fun _ mode => mode == "r" }

/-- The shell at start-up. -/
def freshShell : smallsh :=
  { status := 0, statusIsSignal := false, processes := [], foregroundOnly := false }

/-- A shell with two background jobs whose last foreground command was killed
by signal 2. -/
def busyShell : smallsh :=
  { status := 2, statusIsSignal := true,
    processes := [⟨8192, 1234, "sleep 100 &"⟩, ⟨4096, 77, "sleep 50 &"⟩],
    foregroundOnly := false }

/-- The command `ls`. -/
def lsCmd : cmd :=
  { text := "ls", argv := ["ls"], background := false, input := none, output := none }

/-- The command `sleep 5 &`. -/
def sleepBg : cmd :=
  { text := "sleep 5 &", argv := ["sleep", "5"], background := true, input := none,
    output := none }

/-- The command `sleep 1000 > /dev/null &`, whose text is 24 bytes long. -/
def sleepBg24 : cmd :=
  { text := "sleep 1000 > /dev/null &", argv := ["sleep", "1000"], background := true,
    input := none, output := some "/dev/null" }

/-- The command `cat < /tmp/input_file_0001.txt`, whose input path is 24 bytes
long. -/
def catIn24 : cmd :=
  { text := "cat < /tmp/input_file_0001.txt", argv := ["cat"], background := false,
    input := some "/tmp/input_file_0001.txt", output := none }

/-- The command `ls > /tmp/output_file_001.txt`, whose output path is 24 bytes
long. -/
def lsOut24 : cmd :=
  { text := "ls > /tmp/output_file_001.txt", argv := ["ls"], background := false,
    input := none, output := some "/tmp/output_file_001.txt" }

/-- The command `status`. -/
def statusCmd : cmd :=
  { text := "status", argv := ["status"], background := false, input := none, output := none }

/-- The command `exit`. -/
def exitCmd : cmd :=
  { text := "exit", argv := ["exit"], background := false, input := none, output := none }

end Smallsh

namespace Program3

/-! ## `cmdExpand` of `src/program3/cmd.c`

C strings are lists of characters; a buffer is the list of its bytes. -/

/-- The string terminator. -/
def NUL : Char := Char.ofNat 0

/-- `strlen`: the number of characters before the first terminator. -/
def strlen (mem : List Char) : Nat := (mem.takeWhile (fun ch => ch != NUL)).length

/-- `cmdString[i]`, for a string held as its characters followed by the
terminator. -/
def charAt (cmdString : List Char) (i : Nat) : Char := (cmdString ++ [NUL]).getD i NUL

/-- `sprintf(smallshPID, "%ld", pid)` into the 32-byte buffer: the decimal
digits of the pid, followed by a terminator, must fit. -/
def sprintf_ld (pid : Nat) : Option (List Char) :=
  let digits := Nat.toDigits 10 pid
  if digits.length + 1 ≤ 32 then some digits else none

/-- `strcat(dest, src)`: `src` and a terminator are written from the first
terminator of `dest` on; writing past the end of `dest` is undefined. -/
def strcat (dest src : List Char) : Option (List Char) :=
  let k := strlen dest
  if k + src.length + 1 ≤ dest.length then
    some (dest.take k ++ src ++ [NUL] ++ dest.drop (k + src.length + 1))
  else none

/-- The `while (i < strlen(cmdString))` loop of cmdExpand, run for at most
`fuel` iterations. `none` is a write outside `expanded` or an exhausted
budget. -/
def cmdExpandLoop (cmdString smallshPID : List Char) :
    Nat → Nat → Nat → List Char → Option (List Char)
  | 0, _, _, _ => none
  | fuel + 1, i, j, expanded =>
    if i < strlen (cmdString ++ [NUL]) then
      if charAt cmdString i = '$' ∧ charAt cmdString i = charAt cmdString (i + 1) then
        match strcat expanded smallshPID with
        | none => none
        | some expanded1 =>
          cmdExpandLoop cmdString smallshPID fuel (i + 2) (j + strlen (smallshPID ++ [NUL]))
            expanded1
      else
        if j < expanded.length then
          cmdExpandLoop cmdString smallshPID fuel (i + 1) (j + 1)
            (expanded.set j (charAt cmdString i))
        else none
    else some expanded

/-- cmdExpand of program3/cmd.c, for a shell whose `getpid()` is `pid`. The
result is the string held in the 2049-byte buffer `expanded`. Every iteration
advances `i`, so `strlen(cmdString) + 1` iterations are allowed. The two
`printf` calls that echo the old and the new string are left out. -/
def cmdExpand (pid : Nat) (cmdString : List Char) : Option (List Char) :=
  match sprintf_ld pid with
  | none => none
  | some smallshPID =>
    match cmdExpandLoop cmdString smallshPID (strlen (cmdString ++ [NUL]) + 1) 0 0
        (List.replicate 2049 NUL) with
    | none => none
    | some expanded => some (expanded.takeWhile (fun ch => ch != NUL))

/-- The specification of the expansion: scanning from the left, each `$$` is
replaced by the text of the pid and any other character is copied. -/
def expandSpec (pidText : List Char) : List Char → List Char
  | [] => []
  | [c] => [c]
  | c :: d :: rest =>
    if c = '$' ∧ d = '$' then pidText ++ expandSpec pidText rest
    else c :: expandSpec pidText (d :: rest)

/-- The 2049-byte buffer `expanded` when it holds the string `out` followed by
zero bytes. -/
def bufferHolding (out : List Char) : List Char :=
  out ++ List.replicate (2049 - out.length) NUL

end Program3

namespace Smallsh

/-! ## The supervisor -/

/-- C1: for a command with background = false whose fork succeeds, the outcome
of execute_external is fixed by the wait status alone. After a normal exit with
code `code` the signal flag is cleared and the value is 0 when `code` is 0 and
1 otherwise; after termination by signal `sig` the flag is set and the value is
`sig`. Another shell state or another world with the same wait status gives the
same value and the same flag. -/
theorem execute_external_foreground (w : World) (shell : smallsh) (c : cmd)
    (hbg : c.background = false) (hfork : 0 < w.fork) :
    (∀ code : Nat, code < 256 → w.waitStatus = exitedStatus code →
        (execute_external w shell c).2 =
          Outcome.returned (if code = 0 then 0 else 1)
            { shell with statusIsSignal := false }) ∧
    (∀ (sig : Nat) (core : Bool), 1 ≤ sig → sig ≤ 126 →
        w.waitStatus = signaledStatus sig core →
        (execute_external w shell c).2 =
          Outcome.returned sig { shell with statusIsSignal := true }) ∧
    (∀ (w2 : World) (shell2 : smallsh), 0 < w2.fork → w2.waitStatus = w.waitStatus →
        (execute_external w2 shell2 c).2.value? = (execute_external w shell c).2.value? ∧
        (execute_external w2 shell2 c).2.shell?.map (fun s => s.statusIsSignal) =
          (execute_external w shell c).2.shell?.map (fun s => s.statusIsSignal)) := by
  have h1 : w.fork ≠ -1 := by omega
  have h2 : w.fork ≠ 0 := by omega
  refine ⟨?_, ?_, ?_⟩
  · intro code hcode hw
    have hx : WIFEXITED w.waitStatus = true := by
      simp only [WIFEXITED, WTERMSIG, hw, exitedStatus, beq_iff_eq]; omega
    have he : WEXITSTATUS w.waitStatus = (code : Int) := by
      simp only [WEXITSTATUS, hw, exitedStatus]; omega
    by_cases hc : code = 0
    · have he0 : WEXITSTATUS w.waitStatus = 0 := by rw [he, hc]; rfl
      simp [execute_external, parent, h1, h2, hbg, hx, he0, hc]
    · have he0 : WEXITSTATUS w.waitStatus ≠ 0 := by rw [he]; omega
      simp [execute_external, parent, h1, h2, hbg, hx, he0, hc]
  · intro sig core hlo hhi hw
    have ht : WTERMSIG w.waitStatus = (sig : Int) := by
      cases core <;> simp [WTERMSIG, hw, signaledStatus] <;> omega
    have hx : WIFEXITED w.waitStatus = false := by
      simp only [WIFEXITED, ht, beq_eq_false_iff_ne]; omega
    simp [execute_external, parent, h1, h2, hbg, hx, ht]
  · intro w2 shell2 hfork2 hw
    have h3 : w2.fork ≠ -1 := by omega
    have h4 : w2.fork ≠ 0 := by omega
    simp only [execute_external, parent, h1, h2, h3, h4, hbg, hw, if_false]
    cases WIFEXITED w.waitStatus <;> by_cases h : WEXITSTATUS w.waitStatus = 0 <;>
      simp [Outcome.value?, Outcome.shell?, h]

/-- Witness for C1: `ls` run in the foreground of a shell whose last command
was killed by a signal; the child exits with code 3. -/
theorem execute_external_foreground_witness :
    lsCmd.background = false ∧ 0 < okWorld.fork ∧ okWorld.waitStatus = exitedStatus 3 ∧
    (execute_external okWorld busyShell lsCmd).2 =
      Outcome.returned 1 { busyShell with statusIsSignal := false } :=
  ⟨rfl, by decide, by decide,
    (execute_external_foreground okWorld busyShell lsCmd rfl (by decide)).1 3 (by decide)
      (by decide)⟩

/-- C2 at a failing input: the background command `sleep 1000 > /dev/null &`
has a text of 24 bytes. trackProcess asks for a block of `strlen(cmd->text)`,
that is 24, bytes, of which glibc lets 24 be written, and `strcpy` writes 25:
the terminator lands past the block, so the node does not hold a copy of the
command text and the behaviour of execute_external is undefined. A block of
`strlen(cmd->text) + 1` bytes would have held the copy. -/
theorem trackProcess_copy_overruns :
    sleepBg24.background = true ∧ 0 < okWorld.fork ∧
    strlen sleepBg24.text = 24 ∧ okWorld.usable 24 = some 24 ∧
    mallocStrcpy okWorld (strlen sleepBg24.text) sleepBg24.text = none ∧
    trackProcess okWorld busyShell sleepBg24 42 = none ∧
    execute_external okWorld busyShell sleepBg24 = ([], Outcome.fault) ∧
    mallocStrcpy okWorld (strlen sleepBg24.text + 1) sleepBg24.text =
      some "sleep 1000 > /dev/null &" := by
  decide

/-! ## Redirection -/

/-- C3 at a failing input: `cat < /tmp/input_file_0001.txt` names an input
path of 24 bytes. The child copies it into a block of `strlen(cmd->input)`
bytes, of which glibc lets 24 be written, and `strcpy` writes 25: `newInput`
is not the path the command names, the behaviour is undefined and the file is
not opened under its name. The output path of `ls > /tmp/output_file_001.txt`
goes the same way. A block of `strlen + 1` bytes would have held the path. -/
theorem redirection_path_copy_overruns :
    strlen "/tmp/input_file_0001.txt" = 24 ∧ childWorld.usable 24 = some 24 ∧
    newInput childWorld catIn24 = none ∧
    execute_external childWorld freshShell catIn24 = ([], Outcome.fault) ∧
    strlen "/tmp/output_file_001.txt" = 24 ∧
    newOutput childWorld lsOut24 = none ∧
    execute_external childWorld freshShell lsOut24 = ([], Outcome.fault) ∧
    mallocStrcpy childWorld (strlen "/tmp/input_file_0001.txt" + 1)
      "/tmp/input_file_0001.txt" = some "/tmp/input_file_0001.txt" := by
  decide

/-- C4 at a failing input: the background command `sleep 5 &` names no input
file, so its resolved input path is "/dev/null"; when that cannot be opened the
child prints "cannot open (null) for input", which does not name the path that
failed, and exits with status 1 having run no later step. The output side does
the same with "cannot open (null) for output". -/
theorem cannot_open_names_wrong_path :
    newInput noOpenWorld sleepBg = some (some "/dev/null") ∧
    child noOpenWorld sleepBg =
      ([Event.fopen "/dev/null" "r" false, Event.printf "cannot open (null) for input\n"],
        Outcome.exited 1) ∧
    newOutput readOnlyWorld sleepBg = some (some "/dev/null") ∧
    child readOnlyWorld sleepBg =
      ([Event.fopen "/dev/null" "r" true, Event.dup2 0 true,
        Event.fopen "/dev/null" "w" false, Event.printf "cannot open (null) for output\n"],
        Outcome.exited 1) := by
  decide

/-! ## Built-in commands -/

/-- C5: when the stored status is one a foreground wait produces (with the
signal flag set, a signal number in 1..127; with the flag clear any value, 0
and 1 among them), the `status` built-in prints "terminated by signal N" if the
flag is set and "exit value N" otherwise, N being the stored status. Its trace
is that one line (no process is created, whatever the world), it returns the
stored status and leaves the shell state as it was, so a second run prints the
same line. -/
theorem status_builtin (w : World) (shell : smallsh) (c : cmd) (args : List String)
    (hname : c.argv = "status" :: args)
    (hsig : shell.statusIsSignal = true → 1 ≤ shell.status ∧ shell.status ≤ 127) :
    smallshExecute w shell c =
      ([Event.printf
          (if shell.statusIsSignal then "terminated by signal " ++ toString shell.status ++ "\n"
           else "exit value " ++ toString shell.status ++ "\n")],
        Outcome.returned shell.status shell) ∧
    (∀ (w2 : World) (shell1 : smallsh),
        (smallshExecute w shell c).2.shell? = some shell1 →
        (smallshExecute w2 shell1 c).1 = (smallshExecute w shell c).1) := by
  have key : ∀ w1 : World, smallshExecute w1 shell c =
      ([Event.printf
          (if shell.statusIsSignal then "terminated by signal " ++ toString shell.status ++ "\n"
           else "exit value " ++ toString shell.status ++ "\n")],
        Outcome.returned shell.status shell) := by
    intro w1
    have e1 : ("status" = "exit") = False := by decide
    have e2 : ("status" = "cd") = False := by decide
    cases hs : shell.statusIsSignal
    · simp [smallshExecute, hname, printStatus, hs, e1, e2]
    · have hb := hsig hs
      have ht : WTERMSIG shell.status = shell.status := by
        simp only [WTERMSIG]; omega
      simp [smallshExecute, hname, printStatus, hs, e1, e2, ht]
  refine ⟨key w, ?_⟩
  intro w2 shell1 h
  rw [key w] at h
  simp only [Outcome.shell?, Option.some.injEq] at h
  subst h
  rw [key w, key w2]

/-- Witness for C5: `status` after a foreground command was killed by signal
2. -/
theorem status_builtin_witness :
    smallshExecute okWorld busyShell statusCmd =
      ([Event.printf "terminated by signal 2\n"], Outcome.returned 2 busyShell) :=
  (status_builtin okWorld busyShell statusCmd [] rfl (by decide)).1

/-- C6 at a failing input: with two tracked background processes the `exit`
built-in calls `kill(pid, 0)` once per node and then ends the shell without
waiting; signal number 0 sends nothing, so no call in the trace delivers a
signal to a tracked process. -/
theorem exit_builtin_sends_no_signal :
    smallshExecute okWorld busyShell exitCmd =
      ([Event.kill 1234 0, Event.kill 77 0], Outcome.exited 0) ∧
    (smallshExecute okWorld busyShell exitCmd).1.filter Event.delivers = [] ∧
    waitsFor (smallshExecute okWorld busyShell exitCmd).1 1234 = false := by
  decide

/-! ## Foreground-only mode -/

/-- Events that are not `sigaction` leave the dispositions alone. -/
theorem after_of_no_sigaction (d : Dispositions) (trace : List Event)
    (h : ∀ e ∈ trace, e.isSigaction = false) : d.after trace = d := by
  induction trace generalizing d with
  | nil => rfl
  | cons e rest ih =>
    have he := h e (List.mem_cons_self _ _)
    have hr : ∀ x ∈ rest, x.isSigaction = false := fun x hx => h x (List.mem_cons_of_mem _ hx)
    cases e <;> simp_all [Dispositions.after, Dispositions.step, Event.isSigaction]

/-- The input step changes no disposition. -/
theorem redirectInput_no_sigaction (w : World) (c : cmd) :
    ∀ e ∈ (redirectInput w c).1, e.isSigaction = false := by
  intro e he
  simp only [redirectInput] at he
  cases hn : newInput w c with
  | none => simp [hn] at he
  | some p =>
    cases p with
    | none => simp [hn] at he
    | some path =>
      simp only [hn] at he
      split_ifs at he <;> simp at he <;> rcases he with rfl | rfl <;> rfl

/-- The output step changes no disposition. -/
theorem redirectOutput_no_sigaction (w : World) (c : cmd) :
    ∀ e ∈ (redirectOutput w c).1, e.isSigaction = false := by
  intro e he
  simp only [redirectOutput] at he
  cases hn : newOutput w c with
  | none => simp [hn] at he
  | some p =>
    cases p with
    | none => simp [hn] at he
    | some path =>
      simp only [hn] at he
      split_ifs at he <;> simp at he <;> rcases he with rfl | rfl <;> rfl

/-- The dispositions are composed along a concatenated trace. -/
theorem after_append (d : Dispositions) (t1 t2 : List Event) :
    d.after (t1 ++ t2) = (d.after t1).after t2 := by
  simp [Dispositions.after, List.foldl_append]

/-- C8: when both redirections succeed, the trace of the child is the calls
made up to the exec, then `execvp`, then what follows a failed exec. Whatever
the dispositions the child starts with, at the exec the stop signal is ignored
and the interrupt signal is ignored for a background command and has the
default disposition for a foreground one; nothing after the exec changes a
disposition. No call of the parent branch changes a disposition. -/
theorem child_signal_profile (w : World) (c : cmd) (name : String) (args : List String)
    (hargv : c.argv = name :: args)
    (hin : (redirectInput w c).2 = none) (hout : (redirectOutput w c).2 = none) :
    (∃ pre post, (child w c).1 = pre ++ Event.execvp name c.argv :: post ∧
        (∀ d : Dispositions, d.after pre =
          { sigint := if c.background then Disposition.SIG_IGN else Disposition.SIG_DFL,
            sigtstp := Disposition.SIG_IGN }) ∧
        (∀ e ∈ post, e.isSigaction = false)) ∧
    (∀ (shell : smallsh), ∀ e ∈ (parent w shell c).1, e.isSigaction = false) := by
  constructor
  · refine ⟨(redirectInput w c).1 ++ (redirectOutput w c).1 ++ childSignals c,
      (childExec w c).1.tail, ?_, ?_, ?_⟩
    · simp only [child, hin, hout, childExec, hargv]
      split_ifs <;> simp
    · intro d
      rw [after_append, after_append,
        after_of_no_sigaction d _ (redirectInput_no_sigaction w c),
        after_of_no_sigaction d _ (redirectOutput_no_sigaction w c)]
      cases hb : c.background <;>
        simp [childSignals, hb, ignoreSIGINT, ignoreSIGTSTP, Dispositions.after,
          Dispositions.step]
    · intro e he
      simp only [childExec, hargv] at he
      split_ifs at he <;> simp at he
      subst he
      rfl
  · intro shell e he
    cases hb : c.background
    · simp only [parent, hb] at he
      cases hx : WIFEXITED w.waitStatus <;>
        by_cases hz : WEXITSTATUS w.waitStatus = 0 <;>
        simp [hx, hz] at he <;> rcases he with rfl | rfl | rfl <;> rfl
    · simp only [parent, hb] at he
      cases ht : trackProcess w shell c w.fork <;> simp [ht] at he
      subst he
      rfl

/-- Witness for C8: the foreground command `ls` and the background command
`sleep 5 &` in a world where every call succeeds. -/
theorem child_signal_profile_witness :
    ((redirectInput okWorld lsCmd).2 = none ∧ (redirectOutput okWorld lsCmd).2 = none ∧
      ∃ pre post, (child okWorld lsCmd).1 = pre ++ Event.execvp "ls" lsCmd.argv :: post ∧
        (∀ d : Dispositions, d.after pre =
          { sigint := if lsCmd.background then Disposition.SIG_IGN else Disposition.SIG_DFL,
            sigtstp := Disposition.SIG_IGN }) ∧
        (∀ e ∈ post, e.isSigaction = false)) ∧
    ((redirectInput okWorld sleepBg).2 = none ∧ (redirectOutput okWorld sleepBg).2 = none ∧
      ∃ pre post,
        (child okWorld sleepBg).1 = pre ++ Event.execvp "sleep" sleepBg.argv :: post ∧
        (∀ d : Dispositions, d.after pre =
          { sigint := if sleepBg.background then Disposition.SIG_IGN
                      else Disposition.SIG_DFL,
            sigtstp := Disposition.SIG_IGN }) ∧
        (∀ e ∈ post, e.isSigaction = false)) :=
  ⟨⟨by decide, by decide,
      (child_signal_profile okWorld lsCmd "ls" [] rfl (by decide) (by decide)).1⟩,
    ⟨by decide, by decide,
      (child_signal_profile okWorld sleepBg "sleep" ["5"] rfl (by decide) (by decide)).1⟩⟩

/-! ## The list of background processes -/

/-- The loop of removeProcess keeps the visited nodes and drops from the rest
the nodes at the target address. -/
theorem removeLoop_eq (node : Nat) (rest visited : List processNode) :
    removeLoop node visited rest = visited ++ rest.filter (fun n => n.addr ≠ node) := by
  induction rest generalizing visited with
  | nil => simp [removeLoop]
  | cons n rest ih =>
    by_cases h : n.addr = node
    · simp [removeLoop, h, ih]
    · simp [removeLoop, h, ih]

/-- With no node at the target address, filtering changes nothing. -/
theorem filter_addr_of_not_mem (node : Nat) (l : List processNode)
    (h : ∀ n ∈ l, n.addr ≠ node) : l.filter (fun n => n.addr ≠ node) = l := by
  rw [List.filter_eq_self]
  intro n hn
  simpa using h n hn

/-- In a list whose nodes have distinct addresses, dropping the nodes at the
address of a member erases that member. -/
theorem filter_addr_eq_erase (l : List processNode) (n : processNode)
    (hnd : (l.map processNode.addr).Nodup) (hn : n ∈ l) :
    l.filter (fun m => m.addr ≠ n.addr) = l.erase n := by
  induction l with
  | nil => simp at hn
  | cons a t ih =>
    rw [List.map_cons, List.nodup_cons] at hnd
    by_cases ha : a = n
    · subst ha
      have ht : ∀ m ∈ t, m.addr ≠ a.addr := by
        intro m hm hEq
        exact hnd.1 (hEq ▸ List.mem_map_of_mem processNode.addr hm)
      rw [List.filter_cons_of_neg (by simp), List.erase_cons_head]
      exact filter_addr_of_not_mem a.addr t ht
    · have hnt : n ∈ t := by
        rcases List.mem_cons.mp hn with h | h
        · exact absurd h.symm ha
        · exact h
      have hne : a.addr ≠ n.addr := by
        intro hEq
        exact hnd.1 (hEq ▸ List.mem_map_of_mem processNode.addr hnt)
      rw [List.erase_cons_tail (by simpa using ha),
        List.filter_cons_of_pos (by simpa using hne), ih hnd.2 hnt]

/-- Counterexample for C9: on the empty process list removeProcess does not
leave the shell as it was; it dereferences a null pointer. -/
theorem removeProcess_empty_counterexample :
    removeProcess freshShell 4096 ≠ some freshShell ∧ removeProcess freshShell 4096 = none := by
  decide

/-- C9 as amended: on a non-empty process list whose nodes have distinct
addresses, removeProcess returns, and the list it leaves is the old one without
the node at the target address, the other nodes kept in their order. When the
target is a node of the list exactly that node is erased and the list is one
shorter; when no node is at the target address the shell is unchanged. -/
theorem removeProcess_nonempty (shell : smallsh) (node : Nat)
    (hne : shell.processes ≠ [])
    (hnd : (shell.processes.map processNode.addr).Nodup) :
    removeProcess shell node =
      some { shell with processes := shell.processes.filter (fun n => n.addr ≠ node) } ∧
    (∀ n ∈ shell.processes, n.addr = node →
        removeProcess shell node = some { shell with processes := shell.processes.erase n } ∧
        (shell.processes.erase n).length + 1 = shell.processes.length) ∧
    ((∀ n ∈ shell.processes, n.addr ≠ node) → removeProcess shell node = some shell) := by
  have main : removeProcess shell node =
      some { shell with processes := shell.processes.filter (fun n => n.addr ≠ node) } := by
    cases hp : shell.processes with
    | nil => exact absurd hp hne
    | cons curr rest =>
      rw [hp, List.map_cons, List.nodup_cons] at hnd
      by_cases hc : curr.addr = node
      · have ht : ∀ m ∈ rest, m.addr ≠ node := by
          intro m hm hEq
          exact hnd.1 (by rw [hc, ← hEq]; exact List.mem_map_of_mem processNode.addr hm)
        simp only [removeProcess, hp, hc, if_true]
        rw [List.filter_cons_of_neg (by simp [hc]), filter_addr_of_not_mem node rest ht]
      · simp only [removeProcess, hp, hc, if_false, removeLoop_eq]
        rw [List.filter_cons_of_pos (by simpa using hc)]
        rfl
  refine ⟨main, ?_, ?_⟩
  · intro n hn hEq
    subst hEq
    rw [main, filter_addr_eq_erase shell.processes n hnd hn]
    refine ⟨rfl, ?_⟩
    rw [List.length_erase_of_mem hn]
    have : 0 < shell.processes.length := List.length_pos_of_mem hn
    omega
  · intro h
    rw [main, filter_addr_of_not_mem node shell.processes h]

/-- Witness for C9 as amended: removing the second of the two jobs of
`busyShell`. -/
theorem removeProcess_nonempty_witness :
    busyShell.processes ≠ [] ∧ (busyShell.processes.map processNode.addr).Nodup ∧
    removeProcess busyShell 4096 =
      some { busyShell with processes := [⟨8192, 1234, "sleep 100 &"⟩] } :=
  ⟨by decide, by decide,
    (removeProcess_nonempty busyShell 4096 (by decide) (by decide)).1⟩

end Smallsh

namespace Program3

/-! ## Expansion of `$$` -/

theorem dollar_ne_NUL : ('$' : Char) ≠ NUL := by decide

theorem takeWhile_append_NUL (s t : List Char) (h : ∀ ch ∈ s, ch ≠ NUL) :
    (s ++ NUL :: t).takeWhile (fun ch => ch != NUL) = s := by
  induction s with
  | nil => simp [List.takeWhile]
  | cons a s ih =>
    have ha : a ≠ NUL := h a (List.mem_cons_self _ _)
    have hs : ∀ ch ∈ s, ch ≠ NUL := fun ch hch => h ch (List.mem_cons_of_mem _ hch)
    have hb : (a != NUL) = true := by simpa using ha
    rw [List.cons_append, List.takeWhile_cons]
    simp [hb, ih hs]

theorem strlen_append_NUL (s t : List Char) (h : ∀ ch ∈ s, ch ≠ NUL) :
    strlen (s ++ NUL :: t) = s.length := by
  simp [strlen, takeWhile_append_NUL s t h]

theorem bufferHolding_eq (out : List Char) (h : out.length ≤ 2048) :
    bufferHolding out = out ++ NUL :: List.replicate (2048 - out.length) NUL := by
  have : 2049 - out.length = (2048 - out.length) + 1 := by omega
  rw [bufferHolding, this, List.replicate_succ]

theorem bufferHolding_length (out : List Char) (h : out.length ≤ 2048) :
    (bufferHolding out).length = 2049 := by
  simp [bufferHolding]; omega

theorem bufferHolding_set (out : List Char) (c : Char) (h : out.length + 1 ≤ 2048) :
    (bufferHolding out).set out.length c = bufferHolding (out ++ [c]) := by
  rw [bufferHolding_eq out (by omega), bufferHolding]
  have : 2049 - (out ++ [c]).length = 2048 - out.length := by
    simp only [List.length_append, List.length_singleton]; omega
  rw [this]
  simp [List.set_append]

theorem bufferHolding_strcat (out src : List Char) (hout : ∀ ch ∈ out, ch ≠ NUL)
    (h : out.length + src.length ≤ 2048) :
    strcat (bufferHolding out) src = some (bufferHolding (out ++ src)) := by
  have hlen := bufferHolding_length out (by omega)
  have hk : strlen (bufferHolding out) = out.length := by
    rw [bufferHolding_eq out (by omega)]; exact strlen_append_NUL out _ hout
  simp only [strcat, hk, hlen]
  rw [if_pos (by omega)]
  congr 1
  simp only [bufferHolding, List.length_append]
  rw [List.take_left', List.drop_append_eq_append_drop]
  · simp
    rw [List.drop_eq_nil_of_le (by omega), List.nil_append]
    have e : 2049 - (out.length + src.length) =
        (2049 - out.length - (out.length + src.length + 1 - out.length)) + 1 := by omega
    rw [e, List.replicate_succ]
  · rfl


theorem charAt_here (pre suf : List Char) :
    charAt (pre ++ suf) pre.length = suf.headD NUL := by
  cases suf with
  | nil => simp [charAt, List.getD]
  | cons c rest =>
    simp only [charAt, List.getD_eq_getElem?_getD, List.append_assoc, List.cons_append]
    rw [List.getElem?_append_right (le_refl _)]
    simp

theorem charAt_next (pre : List Char) (c : Char) (suf : List Char) :
    charAt (pre ++ c :: suf) (pre.length + 1) = suf.headD NUL := by
  have := charAt_here (pre ++ [c]) suf
  simpa using this

/-- The expansion of a non-empty string, by its first character. -/
theorem expandSpec_cons (pidText : List Char) (c : Char) (t : List Char) :
    expandSpec pidText (c :: t) =
      if c = '$' ∧ t.head? = some '$' then pidText ++ expandSpec pidText t.tail
      else c :: expandSpec pidText t := by
  cases t with
  | nil => simp [expandSpec]
  | cons d rest => simp [expandSpec]

/-- The expansion holds no terminator when neither the string nor the pid text
does. -/
theorem expandSpec_no_NUL (pidText : List Char) (hp : ∀ ch ∈ pidText, ch ≠ NUL) :
    ∀ s : List Char, (∀ ch ∈ s, ch ≠ NUL) → ∀ ch ∈ expandSpec pidText s, ch ≠ NUL
  | [], _ => by simp [expandSpec]
  | [c], h => by simpa [expandSpec] using h
  | c :: d :: rest, h => by
    have hrest : ∀ ch ∈ rest, ch ≠ NUL := fun ch hch =>
      h ch (List.mem_cons_of_mem _ (List.mem_cons_of_mem _ hch))
    have htail : ∀ ch ∈ d :: rest, ch ≠ NUL := fun ch hch => h ch (List.mem_cons_of_mem _ hch)
    have hc : c ≠ NUL := h c (List.mem_cons_self _ _)
    intro ch hch
    simp only [expandSpec] at hch
    split_ifs at hch
    · rcases List.mem_append.mp hch with h1 | h1
      · exact hp ch h1
      · exact expandSpec_no_NUL pidText hp rest hrest ch h1
    · rcases List.mem_cons.mp hch with h1 | h1
      · exact h1 ▸ hc
      · exact expandSpec_no_NUL pidText hp (d :: rest) htail ch h1

/-- A string without `$$` is its own expansion. -/
theorem expandSpec_no_dollars (pidText : List Char) :
    ∀ s : List Char, (∀ pre post : List Char, s ≠ pre ++ '$' :: '$' :: post) →
      expandSpec pidText s = s
  | [], _ => by simp [expandSpec]
  | [c], _ => by simp [expandSpec]
  | c :: d :: rest, h => by
    have hcd : ¬ (c = '$' ∧ d = '$') := by
      rintro ⟨rfl, rfl⟩
      exact h [] rest rfl
    have htail : ∀ pre post : List Char, d :: rest ≠ pre ++ '$' :: '$' :: post := by
      intro pre post hEq
      exact h (c :: pre) post (by rw [hEq]; rfl)
    simp only [expandSpec, hcd, if_false]
    rw [expandSpec_no_dollars pidText (d :: rest) htail]

/-- The loop of cmdExpand, started at position `pre.length` of the string
`pre ++ suf` with the buffer holding `out`, ends with the buffer holding `out`
followed by the expansion of `suf`. -/
theorem cmdExpandLoop_spec (s pidText : List Char) (hs : ∀ ch ∈ s, ch ≠ NUL)
    (hp : ∀ ch ∈ pidText, ch ≠ NUL) :
    ∀ (fuel : Nat) (pre suf out : List Char), s = pre ++ suf → suf.length < fuel →
      (∀ ch ∈ out, ch ≠ NUL) →
      out.length + (expandSpec pidText suf).length ≤ 2048 →
      cmdExpandLoop s pidText fuel pre.length out.length (bufferHolding out) =
        some (bufferHolding (out ++ expandSpec pidText suf)) := by
  intro fuel
  induction fuel with
  | zero =>
    intro pre suf out _ h
    omega
  | succ fuel ih =>
    intro pre suf out hsplit hfuel hout hfit
    have hlen : strlen (s ++ [NUL]) = s.length := strlen_append_NUL s [] hs
    cases suf with
    | nil =>
      have hi : ¬ pre.length < s.length := by rw [hsplit]; simp
      rw [cmdExpandLoop, hlen, if_neg hi]
      simp [expandSpec]
    | cons c t =>
      have hi : pre.length < s.length := by rw [hsplit]; simp
      have hc : charAt s pre.length = c := by rw [hsplit, charAt_here]; rfl
      have hd : charAt s (pre.length + 1) = t.headD NUL := by rw [hsplit, charAt_next]
      have hcN : c ≠ NUL := hs c (by rw [hsplit]; simp)
      rw [cmdExpandLoop, hlen, if_pos hi, hc, hd]
      cases t with
      | nil =>
        have hno : ¬ (c = '$' ∧ c = ([] : List Char).headD NUL) := by
          rintro ⟨_, h2⟩
          exact hcN h2
        simp only [expandSpec, List.length_singleton] at hfit
        rw [if_neg hno, if_pos (by rw [bufferHolding_length out (by omega)]; omega),
          bufferHolding_set out c (by omega)]
        have key := ih (pre ++ [c]) [] (out ++ [c]) (by simp [hsplit])
          (by simp at hfuel ⊢; omega)
          (by
            intro ch hch
            rcases List.mem_append.mp hch with h1 | h1
            · exact hout ch h1
            · simp at h1; exact h1 ▸ hcN)
          (by simp [expandSpec]; omega)
        simp only [List.length_append, List.length_singleton, expandSpec,
          List.append_nil] at key
        simpa [expandSpec] using key
      | cons d rest =>
        simp only [List.headD_cons]
        by_cases hdd : c = '$' ∧ c = d
        · obtain ⟨h1, h2⟩ := hdd
          subst h2
          subst h1
          simp only [expandSpec, and_self, if_true, List.length_append] at hfit
          rw [if_pos ⟨rfl, rfl⟩, bufferHolding_strcat out pidText hout (by omega)]
          simp only []
          rw [strlen_append_NUL pidText [] hp]
          have key := ih (pre ++ ['$', '$']) rest (out ++ pidText) (by simp [hsplit])
            (by simp at hfuel; omega)
            (by
              intro ch hch
              rcases List.mem_append.mp hch with h1 | h1
              · exact hout ch h1
              · exact hp ch h1)
            (by simp only [List.length_append]; omega)
          simp only [List.length_append, List.length_cons, List.length_nil,
            List.append_assoc] at key
          simpa [expandSpec] using key
        · have hdd2 : ¬ (c = '$' ∧ d = '$') := by
            rintro ⟨h1, h2⟩
            exact hdd ⟨h1, h1.trans h2.symm⟩
          simp only [expandSpec, hdd2, if_false, List.length_cons] at hfit
          rw [if_neg hdd, if_pos (by rw [bufferHolding_length out (by omega)]; omega),
            bufferHolding_set out c (by omega)]
          have key := ih (pre ++ [c]) (d :: rest) (out ++ [c]) (by simp [hsplit])
            (by simp at hfuel ⊢; omega)
            (by
              intro ch hch
              rcases List.mem_append.mp hch with h1 | h1
              · exact hout ch h1
              · simp at h1; exact h1 ▸ hcN)
            (by simp only [List.length_append, List.length_singleton]; omega)
          simp only [List.length_append, List.length_singleton, List.append_assoc,
            List.singleton_append] at key
          simpa [expandSpec, hdd2] using key

theorem digitChar_ne_NUL : ∀ n : Nat, n < 10 → Nat.digitChar n ≠ NUL := by
  decide

theorem toDigitsCore_no_NUL :
    ∀ (fuel n : Nat) (acc : List Char), (∀ ch ∈ acc, ch ≠ NUL) →
      ∀ ch ∈ Nat.toDigitsCore 10 fuel n acc, ch ≠ NUL
  | 0, _, acc, h => by simpa [Nat.toDigitsCore] using h
  | fuel + 1, n, acc, h => by
    have hacc : ∀ ch ∈ Nat.digitChar (n % 10) :: acc, ch ≠ NUL := by
      intro ch hch
      rcases List.mem_cons.mp hch with h1 | h1
      · exact h1 ▸ digitChar_ne_NUL _ (Nat.mod_lt _ (by decide))
      · exact h ch h1
    simp only [Nat.toDigitsCore]
    split_ifs
    · exact hacc
    · exact toDigitsCore_no_NUL fuel (n / 10) _ hacc

theorem toDigits_no_NUL (n : Nat) : ∀ ch ∈ Nat.toDigits 10 n, ch ≠ NUL :=
  toDigitsCore_no_NUL (n + 1) n [] (by simp)

theorem toDigits_length_long (pid : Nat) (h : pid < 2 ^ 63) :
    (Nat.toDigits 10 pid).length ≤ 19 :=
  Nat.toDigitsCore_length 10 (by decide) (pid + 1) pid 19
    (lt_of_lt_of_le h (by norm_num)) (by decide)

/-- C10: for a pid that fits a `long` and a command string whose expansion
fits the 2048 characters of the result buffer, cmdExpand returns the string in
which, scanning from the left, every `$$` is replaced by the decimal text of
the pid and every other character is copied in order. A string without `$$`
comes back unchanged, and `$$$` gives the pid text followed by one `$`. -/
theorem cmdExpand_spec (pid : Nat) (s : List Char) (hpid : pid < 2 ^ 63)
    (hs : ∀ ch ∈ s, ch ≠ NUL)
    (hfit : (expandSpec (Nat.toDigits 10 pid) s).length ≤ 2048) :
    cmdExpand pid s = some (expandSpec (Nat.toDigits 10 pid) s) ∧
    ((∀ pre post : List Char, s ≠ pre ++ '$' :: '$' :: post) → cmdExpand pid s = some s) ∧
    cmdExpand pid ['$', '$', '$'] = some (Nat.toDigits 10 pid ++ ['$']) := by
  have hp := toDigits_no_NUL pid
  have hl := toDigits_length_long pid hpid
  have main : ∀ x : List Char, (∀ ch ∈ x, ch ≠ NUL) →
      (expandSpec (Nat.toDigits 10 pid) x).length ≤ 2048 →
      cmdExpand pid x = some (expandSpec (Nat.toDigits 10 pid) x) := by
    intro x hx hxfit
    have hloop := cmdExpandLoop_spec x (Nat.toDigits 10 pid) hx hp (x.length + 1) [] x []
      rfl (by omega) (by simp) (by simpa using hxfit)
    have hsp : sprintf_ld pid = some (Nat.toDigits 10 pid) := by
      simp only [sprintf_ld]
      rw [if_pos (by omega)]
    have hno := expandSpec_no_NUL (Nat.toDigits 10 pid) hp x hx
    have hb : bufferHolding [] = List.replicate 2049 NUL := rfl
    simp only [List.length_nil, List.nil_append, hb] at hloop
    simp only [cmdExpand, hsp, strlen_append_NUL x [] hx, hloop]
    rw [bufferHolding_eq _ hxfit, takeWhile_append_NUL _ _ hno]
  refine ⟨main s hs hfit, ?_, ?_⟩
  · intro hnd
    rw [main s hs hfit, expandSpec_no_dollars _ s hnd]
  · have h3 := main ['$', '$', '$'] (by decide) (by simp [expandSpec]; omega)
    simpa [expandSpec] using h3

/-- Witness for C10: `echo $$` in the shell with pid 1234. -/
theorem cmdExpand_spec_witness :
    cmdExpand 1234 ['e', 'c', 'h', 'o', ' ', '$', '$'] =
      some ['e', 'c', 'h', 'o', ' ', '1', '2', '3', '4'] :=
  (cmdExpand_spec 1234 ['e', 'c', 'h', 'o', ' ', '$', '$'] (by decide) (by decide)
    (by decide)).1

end Program3
